import Mathlib

/-!
Verification of the template-error recovery engine of this repository.

The Go source is shallowly embedded: strings are modelled as `List Char`
(Go works on bytes/runes and returns byte offsets; on the ASCII inputs the
claims are about, byte and rune indices coincide), machine integers as
`Int`/`Nat` (`strconv.Atoi` overflow is modelled against the 64-bit `int`
bound), panics as the `Except.error` branch, and the external template
engine (`text/template`) as an oracle parameter returning either success
or a failure message, as fixed by the spec's external-interface section.

The fixed regular expressions of the source are embedded as hand-rolled
backtracking matchers implementing Go's leftmost-first semantics for those
exact patterns: candidate start positions are tried left to right
(`scanUp`), greedy quantifiers try longer extents first (`scanDown`),
lazy quantifiers try shorter extents first (`scanUp`), and an optional
group is tried present before absent.
-/

/-- Ascending backtracking search: try `f s`, `f (s+1)`, ..., `f (s+n-1)`
in order and return the first `some`. -/
def scanUp (f : Nat → Option α) : Nat → Nat → Option α
  | _, 0 => none
  | s, n + 1 =>
    match f s with
    | some v => some v
    | none => scanUp f (s + 1) n

/-- Descending backtracking search: try `f n`, `f (n-1)`, ..., `f 1`
in order and return the first `some`. -/
def scanDown (f : Nat → Option α) : Nat → Option α
  | 0 => none
  | n + 1 =>
    match f (n + 1) with
    | some v => some v
    | none => scanDown f n

/-- Value of a decimal digit string (the matchers only feed it `[0-9]+`). -/
def natOfDigits (ds : List Char) : Nat :=
  ds.foldl (fun n c => 10 * n + (c.toNat - 48)) 0

/-- Largest value of Go's 64-bit `int`, the bound `strconv.Atoi` enforces. -/
def maxInt : Nat := 9223372036854775807

/-- Model of `strconv.Atoi` on a digit string captured by `\d+`: the value,
or `none` (an error in Go) when it does not fit in `int`. -/
def atoi (ds : List Char) : Option Int :=
  if natOfDigits ds ≤ maxInt then some (natOfDigits ds) else none

/-- Length of the maximal `\d*` run at the head of the input. -/
def digitRun (l : List Char) : Nat := (l.takeWhile Char.isDigit).length

/-- Maximal run matched by a trailing greedy `.*` (any char except newline). -/
def takeNoNl (l : List Char) : List Char := l.takeWhile (fun c => c ≠ '\n')

/-- Modelled from the spec: `SplitLines` is used by the source but defined
in a file of this repository that is not provided; the spec's
external-interface section fixes it as splitting the source text on line
breaks (the semantics of Go's `strings.Split(text, "\n")`). -/
def SplitLines : List Char → List (List Char)
  | [] => [[]]
  | c :: cs =>
    if c = '\n' then [] :: SplitLines cs
    else
      match SplitLines cs with
      | [] => [[c]]
      | l :: ls => (c :: l) :: ls

/-- Number of newline characters in a text. -/
def nlCount (l : List Char) : Nat := l.countP (fun c => c = '\n')

/-- First index at which `sub` occurs in `s` (Go `strings.Index` without
the `-1` encoding). -/
def firstIdxOf (s sub : List Char) : Option Nat :=
  scanUp (fun p => if sub.isPrefixOf (s.drop p) then some p else none) 0 (s.length + 1)

/-- Model of Go `strings.Index`: first occurrence index, `-1` if absent. -/
def strIndex (s sub : List Char) : Int :=
  match firstIdxOf s sub with
  | some p => (p : Int)
  | none => -1

/-- Model of Go `strings.LastIndex`: last occurrence index, `-1` if absent. -/
def strLastIndex (s sub : List Char) : Int :=
  match scanDown (fun q => if sub.isPrefixOf (s.drop (q - 1)) then some (q - 1) else none)
      (s.length + 1) with
  | some p => (p : Int)
  | none => -1

/-- Occurrence predicate: `sub` occurs in `s` at position `p`. -/
def occAt (s sub : List Char) (p : Nat) : Bool := sub.isPrefixOf (s.drop p)

/-- Model of `regexp.MatchString` for a pattern that is a literal: substring test. -/
def containsSub (sub s : List Char) : Bool := (firstIdxOf s sub).isSome

/-- Model of Go `strings.Replace(s, pat, rep, 1)`: replace the first
occurrence of `pat` by `rep`, or return `s` unchanged if `pat` is absent. -/
def replaceFirst (s pat rep : List Char) : List Char :=
  match firstIdxOf s pat with
  | none => s
  | some j => s.take j ++ rep ++ s.drop (j + pat.length)

/-- Go slice indexing `l[i]` with an `int` index: `none` models the runtime
panic on a negative or out-of-range index. -/
def getIdx (l : List (List Char)) (i : Int) : Option (List Char) :=
  if h : 0 ≤ i ∧ i.toNat < l.length then some (l.get ⟨i.toNat, h.2⟩) else none

/-- ErrorLevel, from the repository's type of the same name. -/
inductive ErrorLevel where
  | misunderstoodError
  | parseErrorLevel
  | execErrorLevel
deriving DecidableEq

/-- Diagnostic record, from the repository's `templateError` struct. -/
structure templateError where
  Line : Int
  Char : Int
  Description : String
  Level : ErrorLevel
deriving DecidableEq

/-! ## The diagnostic extractor

`templateErrorRegex = template: (.*?):((\d+):)?(\d+): (.*)` -/

/-- Literal head of `templateErrorRegex`. -/
def tplLit : List Char := "template: ".toList

/-- Captured groups of `templateErrorRegex`: group 1 (template name),
group 3 (`\d+` inside the optional group; `[]` when the optional group did
not participate, matching Go's empty string for an unmatched group),
group 4, and group 5. -/
structure TplGroups where
  g1 : List Char
  g3 : List Char
  g4 : List Char
  g5 : List Char
deriving DecidableEq

/-- Tail `((\d+):)?(\d+): (.*)` with the optional group present:
both `\d+` are greedy, longer extents first. -/
def caseA (u : List Char) : Option (List Char × List Char × List Char) :=
  scanDown
    (fun l1 =>
      if u.get? l1 = some ':' then
        let v := u.drop (l1 + 1)
        scanDown
          (fun l2 =>
            if [':', ' '].isPrefixOf (v.drop l2) then
              some (u.take l1, v.take l2, takeNoNl (v.drop (l2 + 2)))
            else none)
          (digitRun v)
      else none)
    (digitRun u)

/-- Tail `(\d+): (.*)` with the optional group absent. -/
def caseB (u : List Char) : Option (List Char × List Char × List Char) :=
  scanDown
    (fun l =>
      if [':', ' '].isPrefixOf (u.drop l) then
        some (([] : List Char), u.take l, takeNoNl (u.drop (l + 2)))
      else none)
    (digitRun u)

/-- Tail of the pattern after `template: (.*?):`; the optional group is
tried present (`caseA`) before absent (`caseB`). -/
def matchTail (u : List Char) : Option (List Char × List Char × List Char) :=
  match caseA u with
  | some g => some g
  | none => caseB u

/-- Match `(.*?):((\d+):)?(\d+): (.*)` at the start of `t`: the lazy
group 1 tries shorter extents first and may not contain a newline. -/
def matchTplFrom (t : List Char) : Option TplGroups :=
  scanUp
    (fun k =>
      if (t.take k).all (fun c => c ≠ '\n') && (t.get? k == some ':') then
        match matchTail (t.drop (k + 1)) with
        | some g => some ⟨t.take k, g.1, g.2.1, g.2.2⟩
        | none => none
      else none)
    0 (t.length + 1)

/-- Model of `templateErrorRegex.FindStringSubmatch`: leftmost-first match
anywhere in `s`, or `none` when the message does not match the grammar. -/
def findTplMatch (s : List Char) : Option TplGroups :=
  scanUp
    (fun i =>
      if tplLit.isPrefixOf (s.drop i) then matchTplFrom (s.drop (i + tplLit.length))
      else none)
    0 (s.length + 1)

/-- Model of the source's `createTemplateError`: extract a structured
diagnostic from an engine error message, degrading to `misunderstoodError`
when the message does not match the grammar. -/
def createTemplateError (msg : String) (level : ErrorLevel) : templateError :=
  match findTplMatch msg.toList with
  | none => ⟨-1, -1, msg, ErrorLevel.misunderstoodError⟩
  | some g =>
    let char : Int :=
      match g.g3 with
      | [] => -1
      | _ :: _ =>
        match atoi g.g4 with
        | some n => n
        | none => -1
    let lineDigits :=
      match g.g3 with
      | [] => g.g4
      | _ :: _ => g.g3
    let line : Int :=
      match atoi lineDigits with
      | some n => n - 1
      | none => -1
    ⟨line, char, String.mk g.g5, level⟩

/-! ## The token locator

`findTokenRegex = ['"](.+)['"]` (greedy group). -/

/-- Quote character class `['"]` of `findTokenRegex`. -/
def isQuote (c : Char) : Bool := c = '\x27' || c = '\x22'

/-- Greedy close: given the text after an opening quote, take the farthest
later quote with no intervening newline; the group `(.+)` is nonempty. -/
def greedyClose (u : List Char) : Option (List Char) :=
  scanDown
    (fun j =>
      if (u.get? j).any isQuote && (u.take j).all (fun c => c ≠ '\n') then
        some (u.take j)
      else none)
    u.length

/-- Model of `findTokenRegex.FindStringIndex` combined with the source's
slicing `Description[tokenLoc[0]+1 : tokenLoc[1]-1]`: the text strictly
between the quotes of the leftmost-first match. -/
def findToken (d : List Char) : Option (List Char) :=
  scanUp
    (fun i =>
      match d.get? i with
      | some c => if isQuote c then greedyClose (d.drop (i + 1)) else none
      | none => none)
    0 d.length

/-- Modelled from the spec: the token the spec's token-locator section
describes, the first NON-GREEDY (innermost) quoted span of the
description — the nearest later quote rather than the farthest one.
Kept separate from `findToken` (the matcher embedded from the source) to
compare the two. -/
def findTokenSpec (d : List Char) : Option (List Char) :=
  scanUp
    (fun i =>
      match d.get? i with
      | some c =>
        if isQuote c then
          scanUp
            (fun j =>
              if ((d.drop (i + 1)).get? j).any isQuote
                  && ((d.drop (i + 1)).take j).all (fun c => c ≠ '\n') then
                some ((d.drop (i + 1)).take j)
              else none)
            1 (d.drop (i + 1)).length
        else none
      | none => none)
    0 d.length

/-! ## Healing triggers -/

/-- Literal head of `functionNotFoundRegex = function "(.+)" not defined`. -/
def fnLitA : List Char := "function \x22".toList

/-- Literal tail of `functionNotFoundRegex`. -/
def fnLitB : List Char := "\x22 not defined".toList

/-- Model of `functionNotFoundRegex.FindStringSubmatch`, returning the
captured (greedy, nonempty, newline-free) function name. -/
def funcNotDefined (d : List Char) : Option (List Char) :=
  scanUp
    (fun i =>
      if fnLitA.isPrefixOf (d.drop i) then
        let u := d.drop (i + fnLitA.length)
        scanDown
          (fun j =>
            if fnLitB.isPrefixOf (u.drop j) && (u.take j).all (fun c => c ≠ '\n') then
              some (u.take j)
            else none)
          u.length
      else none)
    0 (d.length + 1)

/-- Literal of `missingValueForCommandRegex`. -/
def mvLit : List Char := "missing value for command".toList

/-- Go regexp's `\s` class: `[\t\n\f\r ]`. -/
def isWS (c : Char) : Bool := c = '\t' || c = '\n' || c = '\x0c' || c = '\r' || c = ' '

/-- Opening action delimiter of `firstEmptyCommandRegex`. -/
def braceOpen : List Char := ['\x7b', '\x7b']

/-- Closing action delimiter of `firstEmptyCommandRegex`. -/
def braceClose : List Char := ['\x7d', '\x7d']

/-- Lazy `\s*?` followed by the closing delimiter: number of whitespace
characters consumed, shortest extent first. -/
def lazyWSClose (v : List Char) : Option Nat :=
  scanUp
    (fun k =>
      if (v.take k).all isWS && braceClose.isPrefixOf (v.drop k) then some k else none)
    0 (v.length + 1)

/-- Second alternative `\s*?-?` of `firstEmptyCommandRegex`: lazy
whitespace, then the optional dash tried present before absent. -/
def alt2Scan (u : List Char) : Option Nat :=
  scanUp
    (fun k =>
      if (u.take k).all isWS then
        if u.get? k = some '-' && braceClose.isPrefixOf (u.drop (k + 1)) then some (k + 1)
        else if braceClose.isPrefixOf (u.drop k) then some k
        else none
      else none)
    0 (u.length + 1)

/-- Inner span of `firstEmptyCommandRegex = {{((-?\s*?)|(\s*?-?))}}` at a
fixed position (input is the text after the opening `{{`): alternative 1
(`-?\s*?`, dash tried present first) before alternative 2 (`\s*?-?`);
returns the length of the matched inner span. -/
def emptyCmdInner (u : List Char) : Option Nat :=
  match
    (match u with
     | '-' :: u1 => (lazyWSClose u1).map (fun k => k + 1)
     | _ => none) with
  | some k => some k
  | none =>
    match lazyWSClose u with
    | some k => some k
    | none => alt2Scan u

/-- Model of `firstEmptyCommandRegex.FindStringSubmatch` (paired with the
match's start position, which `FindStringIndex` reports): leftmost match
of an empty action, with the full matched span `matches[0]`. -/
def findEmptyCmd (s : List Char) : Option (Nat × List Char) :=
  scanUp
    (fun i =>
      if braceOpen.isPrefixOf (s.drop i) then
        (emptyCmdInner (s.drop (i + 2))).map
          (fun k => (i, braceOpen ++ (s.drop (i + 2)).take k ++ braceClose))
      else none)
    0 (s.length + 1)

/-- Start index of the leftmost empty-action match in a line
(`firstEmptyCommandRegex.FindStringIndex(line)`; the source uses `indexes[0]`). -/
def findEmptyCmdIdx (line : List Char) : Option Nat :=
  (findEmptyCmd line).map (fun p => p.1)

/-! ## The recovery driver -/

/-- Model of `*template.Template` as far as the driver observes it: its
name, its function environment (`Funcs` extends it), and the successfully
parsed text, if any. -/
structure GoTemplate where
  name : String
  funcs : List String
  parsed : Option String
deriving DecidableEq

/-- Parse capability of the external template engine (spec's external
interface): given the text and the function environment, `none` on
success and `some msg` on failure with message `msg`. -/
abbrev ParseOracle := String → List String → Option String

/-- Token-locator step of `parseInternal` (source lines 75-87): when the
diagnostic has no char, correlate the first quoted token of the
description against source line `e.Line`; `none` models the panic of the
index expression `lines[tplErr.Line]`. -/
def locateChar (lines : List (List Char)) (e : templateError) : Option templateError :=
  if e.Char = -1 then
    match findToken e.Description.toList with
    | none => some e
    | some token =>
      match getIdx lines e.Line with
      | none => none
      | some line =>
        let lastC := strLastIndex line token
        let firstC := strIndex line token
        some (if lastC = firstC then { e with Char := firstC } else e)
  else some e

/-- The source's recursion bound `maxFixes`. -/
def maxFixes : Nat := 10

/-- Body of `parseInternal`, structurally recursive on the remaining gas
`maxFixes - depth` (the source recurses on `depth + 1` and refuses at
`depth >= maxFixes`, which is exactly gas `0`). `Except.error` models a
panic escaping the function; `Except.ok` carries the returned pair. -/
def parseGo (P : ParseOracle) (text : String) (baseTpl : GoTemplate) :
    Nat → Except String (GoTemplate × List templateError)
  | 0 => .ok (baseTpl, [])
  | gas + 1 =>
    match P text baseTpl.funcs with
    | none => .ok ({ baseTpl with parsed := some text }, [])
    | some msg =>
      let lines := SplitLines text.toList
      let e0 := createTemplateError msg ErrorLevel.parseErrorLevel
      if e0.Level = ErrorLevel.misunderstoodError then .ok (baseTpl, [e0])
      else
        match locateChar lines e0 with
        | none => .error "runtime error: index out of range"
        | some e1 =>
          match funcNotDefined e1.Description.toList with
          | some token =>
            match parseGo P text { baseTpl with funcs := baseTpl.funcs ++ [String.mk token] } gas with
            | .ok (t, es) => .ok (t, e1 :: es)
            | .error pmsg => .error pmsg
          | none =>
            if containsSub mvLit e1.Description.toList then
              match findEmptyCmd text.toList with
              | some (_, span) =>
                match getIdx lines e1.Line with
                | none => .error "runtime error: index out of range"
                | some line =>
                  let e2 :=
                    match findEmptyCmdIdx line with
                    | some idx => { e1 with Char := (idx : Int) }
                    | none => e1
                  let healed := replaceFirst text.toList span (List.replicate span.length ' ')
                  match parseGo P (String.mk healed) baseTpl gas with
                  | .ok (t, es) => .ok (t, e2 :: es)
                  | .error pmsg => .error pmsg
              | none => .ok (baseTpl, [e1])
            else .ok (baseTpl, [e1])

/-- Model of the source's `parseInternal text baseTpl depth`. -/
def parseInternal (P : ParseOracle) (text : String) (baseTpl : GoTemplate) (depth : Nat) :
    Except String (GoTemplate × List templateError) :=
  parseGo P text baseTpl (maxFixes - depth)

/-- Model of the source's top-level `parse`. -/
def parse (P : ParseOracle) (text : String) (baseTpl : GoTemplate) :
    Except String (GoTemplate × List templateError) :=
  parseInternal P text baseTpl 0

/-! ## The execution diagnostic translator -/

/-- The engine's well-known benign failure message for a template name
(the exact `fmt.Sprintf` of the source's `exec`). -/
def execMsgFor (name : String) : String :=
  "template: " ++ name ++ ": \x22" ++ name ++ "\x22 is an incomplete or empty template"

/-- Model of the source's `exec`: the execution outcome of the engine is
`none` on success and `some msg` on failure. The source's final
`findExprRegex` step only prints its match and does not affect the
returned diagnostics, so it is omitted. -/
def exec (tplName : String) (execResult : Option String) : List templateError :=
  match execResult with
  | none => []
  | some msg =>
    if msg = execMsgFor tplName then []
    else [createTemplateError msg ErrorLevel.execErrorLevel]

/-! ## Characterizations of the backtracking scanners -/

/-- Failure of an ascending scan: every probe in the window fails. -/
theorem scanUp_eq_none_iff {α : Type} {f : Nat → Option α} {s n : Nat} :
    scanUp f s n = none ↔ ∀ k, s ≤ k → k < s + n → f k = none := by
  induction n generalizing s with
  | zero =>
    simp only [scanUp]
    constructor
    · intro _ k h1 h2; omega
    · intro _; trivial
  | succ n ih =>
    cases hfs : f s with
    | some v =>
      simp only [scanUp, hfs]
      constructor
      · intro h; cases h
      · intro h
        have := h s (Nat.le_refl s) (by omega)
        rw [hfs] at this; cases this
    | none =>
      simp only [scanUp, hfs]
      rw [ih]
      constructor
      · intro h k hk1 hk2
        rcases Nat.eq_or_lt_of_le hk1 with he | hl
        · rw [← he]; exact hfs
        · exact h k hl (by omega)
      · intro h k hk1 hk2
        exact h k (by omega) (by omega)

/-- Success of an ascending scan: the first succeeding probe in the window. -/
theorem scanUp_eq_some_iff {α : Type} {f : Nat → Option α} {s n : Nat} {v : α} :
    scanUp f s n = some v ↔
      ∃ k, s ≤ k ∧ k < s + n ∧ f k = some v ∧ ∀ j, s ≤ j → j < k → f j = none := by
  induction n generalizing s with
  | zero =>
    simp only [scanUp]
    constructor
    · intro h; cases h
    · rintro ⟨k, h1, h2, -, -⟩; omega
  | succ n ih =>
    cases hfs : f s with
    | some w =>
      simp only [scanUp, hfs]
      constructor
      · intro h
        injection h with h
        refine ⟨s, Nat.le_refl s, by omega, ?_, ?_⟩
        · rw [hfs, h]
        · intro j hj1 hj2; omega
      · rintro ⟨k, hk1, hk2, hk3, hk4⟩
        rcases Nat.eq_or_lt_of_le hk1 with he | hl
        · rw [← he] at hk3; rw [hfs] at hk3; exact hk3
        · have := hk4 s (Nat.le_refl s) hl
          rw [hfs] at this; cases this
    | none =>
      simp only [scanUp, hfs]
      rw [ih]
      constructor
      · rintro ⟨k, hk1, hk2, hk3, hk4⟩
        refine ⟨k, by omega, by omega, hk3, ?_⟩
        intro j hj1 hj2
        rcases Nat.eq_or_lt_of_le hj1 with he | hl
        · rw [← he]; exact hfs
        · exact hk4 j hl hj2
      · rintro ⟨k, hk1, hk2, hk3, hk4⟩
        have hks : k ≠ s := by
          intro he; rw [he, hfs] at hk3; cases hk3
        refine ⟨k, by omega, by omega, hk3, ?_⟩
        intro j hj1 hj2
        exact hk4 j (by omega) hj2

/-- Failure of a descending scan: every probe from `n` down to `1` fails. -/
theorem scanDown_eq_none_iff {α : Type} {f : Nat → Option α} {n : Nat} :
    scanDown f n = none ↔ ∀ k, 1 ≤ k → k ≤ n → f k = none := by
  induction n with
  | zero =>
    simp only [scanDown]
    constructor
    · intro _ k h1 h2; omega
    · intro _; trivial
  | succ n ih =>
    cases hfn : f (n + 1) with
    | some v =>
      simp only [scanDown, hfn]
      constructor
      · intro h; cases h
      · intro h
        have := h (n + 1) (by omega) (Nat.le_refl _)
        rw [hfn] at this; cases this
    | none =>
      simp only [scanDown, hfn]
      rw [ih]
      constructor
      · intro h k hk1 hk2
        rcases Nat.eq_or_lt_of_le hk2 with he | hl
        · rw [he]; exact hfn
        · exact h k hk1 (by omega)
      · intro h k hk1 hk2
        exact h k hk1 (by omega)

/-- Success of a descending scan: the largest succeeding probe. -/
theorem scanDown_eq_some_iff {α : Type} {f : Nat → Option α} {n : Nat} {v : α} :
    scanDown f n = some v ↔
      ∃ k, 1 ≤ k ∧ k ≤ n ∧ f k = some v ∧ ∀ j, k < j → j ≤ n → f j = none := by
  induction n with
  | zero =>
    simp only [scanDown]
    constructor
    · intro h; cases h
    · rintro ⟨k, h1, h2, -, -⟩; omega
  | succ n ih =>
    cases hfn : f (n + 1) with
    | some w =>
      simp only [scanDown, hfn]
      constructor
      · intro h
        injection h with h
        refine ⟨n + 1, by omega, Nat.le_refl _, ?_, ?_⟩
        · rw [hfn, h]
        · intro j hj1 hj2; omega
      · rintro ⟨k, hk1, hk2, hk3, hk4⟩
        rcases Nat.eq_or_lt_of_le hk2 with he | hl
        · rw [he, hfn] at hk3; exact hk3
        · have := hk4 (n + 1) (by omega) (Nat.le_refl _)
          rw [hfn] at this; cases this
    | none =>
      simp only [scanDown, hfn]
      rw [ih]
      constructor
      · rintro ⟨k, hk1, hk2, hk3, hk4⟩
        refine ⟨k, hk1, by omega, hk3, ?_⟩
        intro j hj1 hj2
        rcases Nat.eq_or_lt_of_le hj2 with he | hl
        · rw [he]; exact hfn
        · exact hk4 j hj1 (by omega)
      · rintro ⟨k, hk1, hk2, hk3, hk4⟩
        have hkn : k ≠ n + 1 := by
          intro he; rw [he, hfn] at hk3; cases hk3
        refine ⟨k, hk1, by omega, hk3, ?_⟩
        intro j hj1 hj2
        exact hk4 j hj1 (by omega)

/-- Shortcut: a descending scan whose topmost probe succeeds. -/
theorem scanDown_top {α : Type} {f : Nat → Option α} {n : Nat} {v : α}
    (h1 : 1 ≤ n) (h2 : f n = some v) : scanDown f n = some v :=
  scanDown_eq_some_iff.mpr ⟨n, h1, Nat.le_refl n, h2, fun j hj1 hj2 => absurd hj1 (by omega)⟩

/-! ## List helpers -/

/-- Every list is a Boolean prefix of itself extended on the right. -/
theorem isPrefixOf_append_self (a b : List Char) : a.isPrefixOf (a ++ b) = true :=
  List.isPrefixOf_iff_prefix.mpr (List.prefix_append a b)

/-- Elimination of a Boolean prefix: the larger list decomposes. -/
theorem eq_append_of_isPrefixOf {a s : List Char} (h : a.isPrefixOf s = true) :
    s = a ++ s.drop a.length := by
  have ht := List.prefix_iff_eq_take.mp (List.isPrefixOf_iff_prefix.mp h)
  conv_lhs => rw [← List.take_append_drop a.length s, ← ht]

/-- takeWhile runs through a fully satisfying block. -/
theorem takeWhile_append_of_all {p : Char → Bool} {ds r : List Char}
    (h : ∀ c ∈ ds, p c = true) :
    (ds ++ r).takeWhile p = ds ++ r.takeWhile p := by
  induction ds with
  | nil => simp
  | cons c cs ih =>
    rw [List.cons_append, List.takeWhile_cons_of_pos (h c (List.mem_cons_self c cs)),
      ih (fun x hx => h x (List.mem_cons_of_mem c hx)), List.cons_append]

/-- The digit run of a digit block followed by a non-digit is the block. -/
theorem digitRun_append_stop {ds : List Char} {c : Char} {r : List Char}
    (hds : ∀ x ∈ ds, x.isDigit = true) (hc : c.isDigit = false) :
    digitRun (ds ++ c :: r) = ds.length := by
  unfold digitRun
  rw [takeWhile_append_of_all hds]
  simp [List.takeWhile_cons, hc]

/-- takeWhile keeps a list none of whose characters is excluded. -/
theorem takeNoNl_eq_self {l : List Char} (h : ∀ c ∈ l, c ≠ '\n') : takeNoNl l = l := by
  unfold takeNoNl
  induction l with
  | nil => rfl
  | cons c cs ih =>
    have hc : c ≠ '\n' := h c (List.mem_cons_self c cs)
    rw [List.takeWhile_cons_of_pos (by simp [hc]),
      ih (fun x hx => h x (List.mem_cons_of_mem c hx))]

/-- Unfolding lemma: `String.toList` of `String.mk`. -/
theorem toList_mk (l : List Char) : (String.mk l).toList = l := rfl

/-! ## Small facts about the extractor used by several claims -/

/-- Extraction results coming from a successful numeric conversion are
nonnegative. -/
theorem atoi_nonneg {ds : List Char} {n : Int} (h : atoi ds = some n) : 0 ≤ n := by
  unfold atoi at h
  split at h
  · injection h with h
    rw [← h]
    exact Int.natCast_nonneg _
  · cases h

/-! ## Claim C1 -/

/-- Oracle whose parse capability always fails. -/
def alwaysFailOracle : ParseOracle := fun _ _ => some "template: t:1: boom"

/-- C1 is false on the code: invoked at the depth bound with an oracle
whose parse fails, the driver returns an EMPTY diagnostics list — the
failure's diagnostic is not present (the parse is never attempted). -/
theorem C1_counterexample :
    parseInternal alwaysFailOracle "x" ⟨"t", [], none⟩ 10 = .ok (⟨"t", [], none⟩, []) ∧
      alwaysFailOracle "x" [] ≠ none :=
  ⟨rfl, by simp [alwaysFailOracle]⟩

/-- C1 (amended): a recovery call at depth >= maxFixes returns the base
template together with an empty diagnostics list from that call: the depth
check runs before the parse attempt, so that attempt's diagnostic is
dropped, not included. -/
theorem C1_amended_depth_bound_empty (P : ParseOracle) (text : String)
    (baseTpl : GoTemplate) (depth : Nat) (h : maxFixes ≤ depth) :
    parseInternal P text baseTpl depth = .ok (baseTpl, []) := by
  unfold parseInternal
  rw [Nat.sub_eq_zero_of_le h]
  rfl

/-- Witness for C1 at a concrete oracle, text, template and depth. -/
theorem C1_amended_witness :
    parseInternal (fun _ _ => none) "x" ⟨"t", [], none⟩ 10 = .ok (⟨"t", [], none⟩, []) :=
  C1_amended_depth_bound_empty (fun _ _ => none) "x" ⟨"t", [], none⟩ 10 (by decide)

/-! ## Claim C2 -/

/-- Ten distinct function names for the stub-healing scenario. -/
def stubFns : List String := ["f0", "f1", "f2", "f3", "f4", "f5", "f6", "f7", "f8", "f9"]

/-- The engine's parse failure message for an undefined function. -/
def stubMsg (f : String) : String := "template: t:1: function \x22" ++ f ++ "\x22 not defined"

/-- The diagnostic the extractor produces from `stubMsg f` (char stays
`-1`: the token does not occur in the single source line). -/
def stubDiag (f : String) : templateError :=
  ⟨0, -1, "function \x22" ++ f ++ "\x22 not defined", ErrorLevel.parseErrorLevel⟩

/-- Oracle of a template whose parse has exactly `k` distinct
undefined-function errors, each cured by one function stub: it fails with
the first of the `k` names missing from the environment. -/
def stubOracle (k : Nat) : ParseOracle := fun _ funcs =>
  match (stubFns.take k).find? (fun f => !(funcs.contains f)) with
  | some f => some (stubMsg f)
  | none => none

/-- C2 is false on the code: with exactly maxFixes (= 10) undefined-function
errors each curable by one stub, the top-level call produces the ten
ParseFailure diagnostics but returns the UNPARSED base template (`parsed`
is `none`), not a successfully parsed, usable one. -/
theorem C2_counterexample :
    parse (stubOracle 10) "x" ⟨"t", [], none⟩ =
        .ok (⟨"t", stubFns, none⟩, stubFns.map stubDiag) ∧
      (GoTemplate.mk "t" stubFns none).parsed = none ∧
      (stubFns.map stubDiag).length = maxFixes :=
  ⟨rfl, rfl, rfl⟩

/-- C2 (amended): exactly maxFixes stub-curable errors yield maxFixes
ParseFailure diagnostics and the unparsed base template with all ten stubs
registered; with maxFixes - 1 such errors the driver does return a parsed,
usable template and maxFixes - 1 diagnostics. -/
theorem C2_amended_bound_behavior :
    (parse (stubOracle 10) "x" ⟨"t", [], none⟩ =
        .ok (⟨"t", stubFns, none⟩, stubFns.map stubDiag)) ∧
      (parse (stubOracle 9) "x" ⟨"t", [], none⟩ =
        .ok (⟨"t", stubFns.take 9, some "x"⟩, (stubFns.take 9).map stubDiag)) ∧
      (stubFns.map stubDiag).length = maxFixes ∧
      ((stubFns.take 9).map stubDiag).length = maxFixes - 1 ∧
      (∀ e ∈ stubFns.map stubDiag, e.Level = ErrorLevel.parseErrorLevel) :=
  ⟨rfl, rfl, rfl, rfl, by decide⟩

/-! ## Claim C4 -/

/-- C4: on any message that does not match the diagnostic grammar, the
extractor returns (it is a total function, it cannot raise) the
Misunderstood diagnostic with line = char = -1 and the verbatim text. -/
theorem C4_nonmatching_misunderstood (s : String) (lvl : ErrorLevel)
    (h : findTplMatch s.toList = none) :
    createTemplateError s lvl = ⟨-1, -1, s, ErrorLevel.misunderstoodError⟩ := by
  unfold createTemplateError
  rw [h]

/-- Witness for C4 at a concrete non-matching message. -/
theorem C4_witness :
    findTplMatch "boom".toList = none ∧
      createTemplateError "boom" ErrorLevel.parseErrorLevel =
        ⟨-1, -1, "boom", ErrorLevel.misunderstoodError⟩ :=
  ⟨rfl, C4_nonmatching_misunderstood "boom" ErrorLevel.parseErrorLevel rfl⟩

/-! ## Claim C8 -/

/-- C8: the execution translator returns no diagnostics on success and on
the engine's exact incomplete-or-empty message for the template's own
name, and otherwise the single diagnostic the extractor produces when
invoked at ExecFailure level. -/
theorem C8_exec_translator (name m : String) :
    exec name none = [] ∧
      exec name (some (execMsgFor name)) = [] ∧
      (m ≠ execMsgFor name →
        exec name (some m) = [createTemplateError m ErrorLevel.execErrorLevel]) := by
  refine ⟨rfl, ?_, ?_⟩
  · simp [exec]
  · intro h
    simp [exec, h]

/-- Witness for C8 at a concrete name and failure message. -/
theorem C8_witness :
    exec "t" none = [] ∧
      exec "t" (some (execMsgFor "t")) = [] ∧
      exec "t" (some "boom2") = [createTemplateError "boom2" ErrorLevel.execErrorLevel] := by
  obtain ⟨h1, h2, h3⟩ := C8_exec_translator "t" "boom2"
  exact ⟨h1, h2, h3 (by decide)⟩

/-! ## Claim C9 -/

/-- C9 is false on the code: when the line field overflows `int` while the
char field converts, the diagnostic has char = 5 >= 0 but line = -1, at a
non-Misunderstood level. -/
theorem C9_counterexample :
    (createTemplateError "template: X:99999999999999999999:5: e"
        ErrorLevel.parseErrorLevel).Char = 5 ∧
      (createTemplateError "template: X:99999999999999999999:5: e"
        ErrorLevel.parseErrorLevel).Line = -1 ∧
      (createTemplateError "template: X:99999999999999999999:5: e"
        ErrorLevel.parseErrorLevel).Level = ErrorLevel.parseErrorLevel :=
  ⟨rfl, rfl, rfl⟩

/-- C9 (amended): every extracted diagnostic has line >= -1 and char >= -1,
and a Misunderstood one has line = char = -1 with the verbatim text; char
>= 0 no longer forces line >= 0 (the counterexample's conversion failure). -/
theorem C9_amended_invariant (s : String) (lvl : ErrorLevel)
    (hl : lvl ≠ ErrorLevel.misunderstoodError) :
    -1 ≤ (createTemplateError s lvl).Line ∧
      -1 ≤ (createTemplateError s lvl).Char ∧
      ((createTemplateError s lvl).Level = ErrorLevel.misunderstoodError →
        (createTemplateError s lvl).Line = -1 ∧ (createTemplateError s lvl).Char = -1 ∧
          (createTemplateError s lvl).Description = s) := by
  unfold createTemplateError
  cases h : findTplMatch s.toList with
  | none =>
    refine ⟨le_refl _, le_refl _, fun _ => ⟨rfl, rfl, rfl⟩⟩
  | some g =>
    obtain ⟨g1, g3, g4, g5⟩ := g
    refine ⟨?_, ?_, fun hm => absurd hm hl⟩
    · cases g3 with
      | nil =>
        cases hA : atoi g4 with
        | none => simp [hA]
        | some n =>
          have := atoi_nonneg hA
          simp only [hA]
          omega
      | cons c cs =>
        cases hA : atoi (c :: cs) with
        | none => simp [hA]
        | some n =>
          have := atoi_nonneg hA
          simp only [hA]
          omega
    · cases g3 with
      | nil => simp
      | cons c cs =>
        cases hA : atoi g4 with
        | none => simp [hA]
        | some n =>
          have := atoi_nonneg hA
          simp only [hA]
          omega

/-- Witness for C9 at a concrete message and level. -/
theorem C9_witness :
    -1 ≤ (createTemplateError "boom" ErrorLevel.parseErrorLevel).Line ∧
      -1 ≤ (createTemplateError "boom" ErrorLevel.parseErrorLevel).Char ∧
      ((createTemplateError "boom" ErrorLevel.parseErrorLevel).Level =
          ErrorLevel.misunderstoodError →
        (createTemplateError "boom" ErrorLevel.parseErrorLevel).Line = -1 ∧
          (createTemplateError "boom" ErrorLevel.parseErrorLevel).Char = -1 ∧
          (createTemplateError "boom" ErrorLevel.parseErrorLevel).Description = "boom") :=
  C9_amended_invariant "boom" ErrorLevel.parseErrorLevel (by decide)

/-! ## Claim C10 -/

/-- C10: on an execution failure whose message does not match the grammar
and is not the suppressed message, the translator's single diagnostic is
Misunderstood with line = char = -1 — the ExecFailure level requested by the caller
is discarded. -/
theorem C10_exec_misunderstood (name m : String)
    (h1 : findTplMatch m.toList = none) (h2 : m ≠ execMsgFor name) :
    exec name (some m) = [⟨-1, -1, m, ErrorLevel.misunderstoodError⟩] := by
  have hm : createTemplateError m ErrorLevel.execErrorLevel =
      ⟨-1, -1, m, ErrorLevel.misunderstoodError⟩ := by
    unfold createTemplateError
    rw [h1]
  simp [exec, h2, hm]

/-- Witness for C10 at a concrete message. -/
theorem C10_witness :
    exec "t" (some "boom") = [⟨-1, -1, "boom", ErrorLevel.misunderstoodError⟩] :=
  C10_exec_misunderstood "t" "boom" rfl (by decide)

/-! ## Claim C3: symbolic analysis of the extraction grammar -/

/-- Digits are not the colon delimiter. -/
theorem digit_ne_colon {c : Char} (h : c.isDigit = true) : c ≠ ':' := by
  intro he
  rw [he] at h
  cases h

/-- The optional-group branch fails on a line-only message tail: after the
full digit run the next two characters are `: ` (colon space), so the
second `\d+` of the branch has nothing to match. -/
theorem caseA_line_only (ds desc : List Char) (hdsd : ∀ c ∈ ds, c.isDigit = true) :
    caseA (ds ++ ':' :: ' ' :: desc) = none := by
  unfold caseA
  have hrun : digitRun (ds ++ ':' :: ' ' :: desc) = ds.length :=
    digitRun_append_stop hdsd (by decide)
  rw [hrun]
  rw [scanDown_eq_none_iff]
  intro l1 h1 h2
  rcases Nat.eq_or_lt_of_le h2 with he | hl
  · rw [he]
    rw [List.get?_append_right (Nat.le_refl _)]
    simp only [Nat.sub_self, List.get?, if_pos rfl]
    have hv : (ds ++ ':' :: ' ' :: desc).drop (ds.length + 1) = ' ' :: desc := by
      rw [← List.drop_drop, List.drop_left]
      rfl
    rw [hv]
    have : digitRun (' ' :: desc) = 0 := by
      unfold digitRun
      rw [List.takeWhile_cons_of_neg (by decide)]
      rfl
    rw [this]
    rfl
  · have hlt : l1 < ds.length := by omega
    have hsome : (ds ++ ':' :: ' ' :: desc).get? l1 = some (ds.get ⟨l1, hlt⟩) := by
      rw [List.get?_append hlt, List.get?_eq_get hlt]
    have hdig : (ds.get ⟨l1, hlt⟩).isDigit = true := hdsd _ (ds.get_mem l1 hlt)
    rw [hsome, if_neg ?_]
    intro he
    injection he with he
    exact digit_ne_colon hdig he

/-- The no-optional-group branch succeeds on a line-only message tail,
capturing the digits and the description. -/
theorem caseB_line_only (ds desc : List Char) (hds : ds ≠ [])
    (hdsd : ∀ c ∈ ds, c.isDigit = true) (hdesc : ∀ c ∈ desc, c ≠ '\n') :
    caseB (ds ++ ':' :: ' ' :: desc) = some ([], ds, desc) := by
  unfold caseB
  have hrun : digitRun (ds ++ ':' :: ' ' :: desc) = ds.length :=
    digitRun_append_stop hdsd (by decide)
  rw [hrun]
  apply scanDown_top (List.length_pos.mpr hds)
  rw [List.drop_left]
  rw [if_pos (by simp [List.isPrefixOf])]
  have ht : (ds ++ ':' :: ' ' :: desc).take ds.length = ds := List.take_left ds _
  have hd : (ds ++ ':' :: ' ' :: desc).drop (ds.length + 2) = desc := by
    rw [← List.drop_drop, List.drop_left]
    rfl
  rw [ht, hd, takeNoNl_eq_self hdesc]

/-- The optional-group branch succeeds on a line+char message tail,
capturing both digit fields greedily in full. -/
theorem caseA_line_char (ds cs desc : List Char) (hds : ds ≠ [])
    (hdsd : ∀ c ∈ ds, c.isDigit = true) (hcs : cs ≠ [])
    (hcsd : ∀ c ∈ cs, c.isDigit = true) (hdesc : ∀ c ∈ desc, c ≠ '\n') :
    caseA (ds ++ ':' :: (cs ++ ':' :: ' ' :: desc)) = some (ds, cs, desc) := by
  unfold caseA
  have hrun : digitRun (ds ++ ':' :: (cs ++ ':' :: ' ' :: desc)) = ds.length :=
    digitRun_append_stop hdsd (by decide)
  rw [hrun]
  apply scanDown_top (List.length_pos.mpr hds)
  rw [List.get?_append_right (Nat.le_refl _)]
  simp only [Nat.sub_self, List.get?, if_pos rfl]
  have hv : (ds ++ ':' :: (cs ++ ':' :: ' ' :: desc)).drop (ds.length + 1) =
      cs ++ ':' :: ' ' :: desc := by
    rw [← List.drop_drop, List.drop_left]
    rfl
  rw [hv]
  have hrun2 : digitRun (cs ++ ':' :: ' ' :: desc) = cs.length :=
    digitRun_append_stop hcsd (by decide)
  rw [hrun2]
  apply scanDown_top (List.length_pos.mpr hcs)
  rw [List.drop_left]
  rw [if_pos (by simp [List.isPrefixOf])]
  have ht1 : (ds ++ ':' :: (cs ++ ':' :: ' ' :: desc)).take ds.length = ds :=
    List.take_left ds _
  have ht2 : (cs ++ ':' :: ' ' :: desc).take cs.length = cs := List.take_left cs _
  have hd2 : (cs ++ ':' :: ' ' :: desc).drop (cs.length + 2) = desc := by
    rw [← List.drop_drop, List.drop_left]
    rfl
  rw [ht1, ht2, hd2, takeNoNl_eq_self hdesc]

/-- The lazy name group stops at the first colon when the name contains
none, and the whole tail pattern then matches. -/
theorem matchTplFrom_at (name rest : List Char) (g : List Char × List Char × List Char)
    (hn : ∀ c ∈ name, c ≠ ':' ∧ c ≠ '\n')
    (hm : matchTail rest = some g) :
    matchTplFrom (name ++ ':' :: rest) = some ⟨name, g.1, g.2.1, g.2.2⟩ := by
  unfold matchTplFrom
  apply scanUp_eq_some_iff.mpr
  have hta : (name ++ ':' :: rest).take name.length = name := List.take_left name _
  have htg : (name ++ ':' :: rest).get? name.length = some ':' := by
    rw [List.get?_append_right (Nat.le_refl _)]
    simp [List.get?]
  have hdr : (name ++ ':' :: rest).drop (name.length + 1) = rest := by
    rw [← List.drop_drop, List.drop_left]
    rfl
  refine ⟨name.length, Nat.zero_le _, ?_, ?_, ?_⟩
  · simp [List.length_append]
    omega
  · split
    · rw [hdr, hm, hta]
    · next hcond =>
      exfalso
      apply hcond
      rw [hta, htg]
      simp only [Bool.and_eq_true, List.all_eq_true, decide_eq_true_eq, beq_self_eq_true,
        and_true]
      intro c hc
      exact (hn c hc).2
  · intro j hj0 hj
    split
    · next hcond =>
      exfalso
      have hg : (name ++ ':' :: rest).get? j = some (name.get ⟨j, hj⟩) := by
        rw [List.get?_append hj, List.get?_eq_get hj]
      rw [Bool.and_eq_true] at hcond
      have hx := hcond.2
      rw [hg] at hx
      simp only [beq_iff_eq, Option.some.injEq] at hx
      exact (hn _ (name.get_mem j hj)).1 hx
    · rfl

/-- The extractor's regex matches at position 0 of a message that starts
with the literal `template: `. -/
theorem findTplMatch_head (rest : List Char) (g : TplGroups)
    (hm : matchTplFrom rest = some g) :
    findTplMatch (tplLit ++ rest) = some g := by
  unfold findTplMatch
  apply scanUp_eq_some_iff.mpr
  refine ⟨0, Nat.le_refl 0, by omega, ?_, by omega⟩
  rw [List.drop_zero, if_pos (isPrefixOf_append_self tplLit rest), Nat.zero_add,
    List.drop_left, hm]

/-- General extraction, line-only form `template: <name>:<line>: <desc>`:
the 1-based line value is stored decremented, char stays -1. -/
theorem createTemplateError_line_only (lvl : ErrorLevel) (name ds desc : List Char)
    (hn : ∀ c ∈ name, c ≠ ':' ∧ c ≠ '\n') (hds : ds ≠ [])
    (hdsd : ∀ c ∈ ds, c.isDigit = true) (hdesc : ∀ c ∈ desc, c ≠ '\n')
    (hv : natOfDigits ds ≤ maxInt) :
    createTemplateError (String.mk (tplLit ++ (name ++ ':' :: (ds ++ ':' :: ' ' :: desc)))) lvl
      = ⟨(natOfDigits ds : Int) - 1, -1, String.mk desc, lvl⟩ := by
  have hmt : matchTail (ds ++ ':' :: ' ' :: desc) = some ([], ds, desc) := by
    unfold matchTail
    rw [caseA_line_only ds desc hdsd]
    exact caseB_line_only ds desc hds hdsd hdesc
  have hfm : findTplMatch (tplLit ++ (name ++ ':' :: (ds ++ ':' :: ' ' :: desc))) =
      some ⟨name, [], ds, desc⟩ :=
    findTplMatch_head _ _ (matchTplFrom_at name _ ([], ds, desc) hn hmt)
  have hat : atoi ds = some ((natOfDigits ds : Int)) := by
    unfold atoi
    rw [if_pos hv]
  unfold createTemplateError
  rw [toList_mk, hfm]
  cases ds with
  | nil => exact absurd rfl hds
  | cons d ds2 =>
    simp only [hat]

/-- General extraction, line+char form `template: <name>:<line>:<char>: <desc>`:
the 1-based line value is stored decremented, the char value as given. -/
theorem createTemplateError_line_char (lvl : ErrorLevel) (name ds cs desc : List Char)
    (hn : ∀ c ∈ name, c ≠ ':' ∧ c ≠ '\n') (hds : ds ≠ [])
    (hdsd : ∀ c ∈ ds, c.isDigit = true) (hcs : cs ≠ [])
    (hcsd : ∀ c ∈ cs, c.isDigit = true) (hdesc : ∀ c ∈ desc, c ≠ '\n')
    (hv1 : natOfDigits ds ≤ maxInt) (hv2 : natOfDigits cs ≤ maxInt) :
    createTemplateError
        (String.mk (tplLit ++ (name ++ ':' :: (ds ++ ':' :: (cs ++ ':' :: ' ' :: desc))))) lvl
      = ⟨(natOfDigits ds : Int) - 1, (natOfDigits cs : Int), String.mk desc, lvl⟩ := by
  have hmt : matchTail (ds ++ ':' :: (cs ++ ':' :: ' ' :: desc)) = some (ds, cs, desc) := by
    unfold matchTail
    rw [caseA_line_char ds cs desc hds hdsd hcs hcsd hdesc]
  have hfm : findTplMatch
      (tplLit ++ (name ++ ':' :: (ds ++ ':' :: (cs ++ ':' :: ' ' :: desc)))) =
      some ⟨name, ds, cs, desc⟩ :=
    findTplMatch_head _ _ (matchTplFrom_at name _ (ds, cs, desc) hn hmt)
  have hat1 : atoi ds = some ((natOfDigits ds : Int)) := by
    unfold atoi
    rw [if_pos hv1]
  have hat2 : atoi cs = some ((natOfDigits cs : Int)) := by
    unfold atoi
    rw [if_pos hv2]
  unfold createTemplateError
  rw [toList_mk, hfm]
  cases ds with
  | nil => exact absurd rfl hds
  | cons d ds2 =>
    simp only [hat1, hat2]

/-- C3: the extractor maps `template: X:12: some error` to line 11, char -1,
description `some error`, and `template: X:3:5: some error` to line 2,
char 5, description `some error`; in general, on both grammar forms, the
1-based line digits are stored decremented by one while the char digits
are stored as given. -/
theorem C3_extractor_forms :
    (createTemplateError "template: X:12: some error" ErrorLevel.parseErrorLevel =
        ⟨11, -1, "some error", ErrorLevel.parseErrorLevel⟩) ∧
      (createTemplateError "template: X:3:5: some error" ErrorLevel.parseErrorLevel =
        ⟨2, 5, "some error", ErrorLevel.parseErrorLevel⟩) ∧
      (∀ (lvl : ErrorLevel) (name ds desc : List Char),
        (∀ c ∈ name, c ≠ ':' ∧ c ≠ '\n') → ds ≠ [] → (∀ c ∈ ds, c.isDigit = true) →
        (∀ c ∈ desc, c ≠ '\n') → natOfDigits ds ≤ maxInt →
        createTemplateError (String.mk (tplLit ++ (name ++ ':' :: (ds ++ ':' :: ' ' :: desc)))) lvl
          = ⟨(natOfDigits ds : Int) - 1, -1, String.mk desc, lvl⟩) ∧
      (∀ (lvl : ErrorLevel) (name ds cs desc : List Char),
        (∀ c ∈ name, c ≠ ':' ∧ c ≠ '\n') → ds ≠ [] → (∀ c ∈ ds, c.isDigit = true) →
        cs ≠ [] → (∀ c ∈ cs, c.isDigit = true) →
        (∀ c ∈ desc, c ≠ '\n') → natOfDigits ds ≤ maxInt → natOfDigits cs ≤ maxInt →
        createTemplateError
            (String.mk (tplLit ++ (name ++ ':' :: (ds ++ ':' :: (cs ++ ':' :: ' ' :: desc))))) lvl
          = ⟨(natOfDigits ds : Int) - 1, (natOfDigits cs : Int), String.mk desc, lvl⟩) :=
  ⟨rfl, rfl,
    fun lvl name ds desc h1 h2 h3 h4 h5 =>
      createTemplateError_line_only lvl name ds desc h1 h2 h3 h4 h5,
    fun lvl name ds cs desc h1 h2 h3 h4 h5 h6 h7 h8 =>
      createTemplateError_line_char lvl name ds cs desc h1 h2 h3 h4 h5 h6 h7 h8⟩

/-- Witness for C3's general clauses at concrete digit strings. -/
theorem C3_witness :
    createTemplateError
        (String.mk (tplLit ++ (['X'] ++ ':' :: (['7'] ++ ':' :: ' ' :: ['o', 'k']))))
        ErrorLevel.parseErrorLevel
      = ⟨(natOfDigits ['7'] : Int) - 1, -1, String.mk ['o', 'k'],
          ErrorLevel.parseErrorLevel⟩ ∧
      createTemplateError
          (String.mk (tplLit ++ (['X'] ++ ':' :: (['7'] ++ ':' :: (['4'] ++ ':' :: ' ' :: ['o', 'k'])))))
          ErrorLevel.parseErrorLevel
        = ⟨(natOfDigits ['7'] : Int) - 1, (natOfDigits ['4'] : Int), String.mk ['o', 'k'],
            ErrorLevel.parseErrorLevel⟩ := by
  obtain ⟨-, -, h3, h4⟩ := C3_extractor_forms
  exact ⟨h3 ErrorLevel.parseErrorLevel ['X'] ['7'] ['o', 'k'] (by decide) (by decide)
      (by decide) (by decide) (by decide),
    h4 ErrorLevel.parseErrorLevel ['X'] ['7'] ['4'] ['o', 'k'] (by decide) (by decide)
      (by decide) (by decide) (by decide) (by decide) (by decide) (by decide)⟩

/-! ## Claim C7 -/

/-- In-bounds indexing succeeds (does not panic). -/
theorem getIdx_of_bounds {l : List (List Char)} {i : Int}
    (h1 : 0 ≤ i) (h2 : i < (l.length : Int)) : ∃ x, getIdx l i = some x := by
  unfold getIdx
  have hlt : i.toNat < l.length := by omega
  rw [dif_pos ⟨h1, hlt⟩]
  exact ⟨_, rfl⟩

/-- The token-locator step cannot panic when the diagnostic's line is a
valid index; it only ever updates the char field. -/
theorem locateChar_line (lines : List (List Char)) (e : templateError)
    (hb : 0 ≤ e.Line ∧ e.Line < (lines.length : Int)) :
    ∃ e1, locateChar lines e = some e1 ∧ e1.Line = e.Line ∧
      e1.Description = e.Description ∧ e1.Level = e.Level := by
  unfold locateChar
  by_cases hc : e.Char = -1
  · rw [if_pos hc]
    cases hft : findToken e.Description.toList with
    | none => exact ⟨e, rfl, rfl, rfl, rfl⟩
    | some token =>
      obtain ⟨line, hline⟩ := getIdx_of_bounds hb.1 hb.2
      rw [hline]
      refine ⟨_, rfl, ?_, ?_, ?_⟩ <;> split <;> rfl
  · rw [if_neg hc]
    exact ⟨e, rfl, rfl, rfl, rfl⟩

/-- C7 is false on the code: a parse failure message with line number 0
(stored as -1) and a quoted token makes the driver panic at the index
expression `lines[tplErr.Line]` instead of returning normally. -/
theorem C7_counterexample :
    parse (fun _ _ => some "template: X:0: no \x27tok\x27 here") "z" ⟨"t", [], none⟩ =
      Except.error "runtime error: index out of range" := rfl

/-- C7 (amended): the recovery driver terminates normally — returning a
result plus a diagnostics list, never a panic — provided every failure
message the parse capability returns extracts, at non-Misunderstood level,
to a line that is a valid index into the split lines of the text it was
returned for; the execution translator always returns a diagnostics list. -/
theorem C7_amended_no_panic (P : ParseOracle)
    (H : ∀ (s : String) (fns : List String) (m : String), P s fns = some m →
      (createTemplateError m ErrorLevel.parseErrorLevel).Level ≠
          ErrorLevel.misunderstoodError →
      0 ≤ (createTemplateError m ErrorLevel.parseErrorLevel).Line ∧
        (createTemplateError m ErrorLevel.parseErrorLevel).Line <
          ((SplitLines s.toList).length : Int)) :
    (∀ (depth : Nat) (text : String) (baseTpl : GoTemplate),
      ∃ r, parseInternal P text baseTpl depth = Except.ok r) ∧
      (∀ (name : String) (res : Option String), ∃ l, exec name res = l) := by
  constructor
  · have key : ∀ (gas : Nat) (text : String) (baseTpl : GoTemplate),
        ∃ r, parseGo P text baseTpl gas = Except.ok r := by
      intro gas
      induction gas with
      | zero =>
        intro text baseTpl
        exact ⟨_, rfl⟩
      | succ gas ih =>
        intro text baseTpl
        simp only [parseGo]
        cases hP : P text baseTpl.funcs with
        | none => exact ⟨_, rfl⟩
        | some msg =>
          simp only []
          by_cases hL : (createTemplateError msg ErrorLevel.parseErrorLevel).Level =
              ErrorLevel.misunderstoodError
          · rw [if_pos hL]
            exact ⟨_, rfl⟩
          · rw [if_neg hL]
            obtain ⟨e1, he1, heL, heD, heV⟩ :=
              locateChar_line (SplitLines text.toList)
                (createTemplateError msg ErrorLevel.parseErrorLevel)
                (H text baseTpl.funcs msg hP hL)
            rw [he1]
            simp only []
            cases hfn : funcNotDefined e1.Description.toList with
            | some token =>
              simp only []
              obtain ⟨⟨t0, es0⟩, hr⟩ :=
                ih text { baseTpl with funcs := baseTpl.funcs ++ [String.mk token] }
              rw [hr]
              exact ⟨_, rfl⟩
            | none =>
              simp only []
              by_cases hmv : containsSub mvLit e1.Description.toList = true
              · rw [if_pos hmv]
                cases hec : findEmptyCmd text.toList with
                | none => exact ⟨_, rfl⟩
                | some pr =>
                  obtain ⟨i, span⟩ := pr
                  simp only []
                  have hbnd := H text baseTpl.funcs msg hP hL
                  rw [← heL] at hbnd
                  obtain ⟨line, hline⟩ := getIdx_of_bounds hbnd.1 hbnd.2
                  rw [hline]
                  simp only []
                  obtain ⟨⟨t0, es0⟩, hr⟩ := ih (String.mk (replaceFirst text.toList span
                    (List.replicate span.length ' '))) baseTpl
                  rw [hr]
                  exact ⟨_, rfl⟩
              · rw [if_neg hmv]
                exact ⟨_, rfl⟩
    exact fun depth text baseTpl => key (maxFixes - depth) text baseTpl
  · intro name res
    exact ⟨_, rfl⟩

/-- Witness for C7 at a concrete oracle satisfying the proviso. -/
theorem C7_witness :
    ∃ r, parseInternal (fun _ _ => none) "w" ⟨"t", [], none⟩ 0 = Except.ok r :=
  (C7_amended_no_panic (fun _ _ => none)
    (fun _ _ _ hm => Option.noConfusion hm)).1 0 "w" ⟨"t", [], none⟩

/-! ## Claim C6: structure of line splitting under healing -/

/-- Splitting always produces at least one line. -/
theorem SplitLines_ne_nil (s : List Char) : SplitLines s ≠ [] := by
  cases s with
  | nil => simp [SplitLines]
  | cons c cs =>
    unfold SplitLines
    split
    · simp
    · split <;> simp

/-- Splitting after a newline head. -/
theorem SplitLines_cons_nl (cs : List Char) :
    SplitLines ('\n' :: cs) = [] :: SplitLines cs := by
  rw [SplitLines]
  rw [if_pos rfl]

/-- Splitting after a non-newline head extends the first line. -/
theorem SplitLines_cons_other {c : Char} (cs : List Char) (hc : c ≠ '\n')
    {L : List Char} {Ls : List (List Char)} (hs : SplitLines cs = L :: Ls) :
    SplitLines (c :: cs) = (c :: L) :: Ls := by
  unfold SplitLines
  rw [if_neg hc, hs]

/-- A newline-free block prepended to a text merges into its first line. -/
theorem SplitLines_noNl_append (m b : List Char) (hm : ∀ c ∈ m, c ≠ '\n') :
    ∃ L Ls, SplitLines b = L :: Ls ∧ SplitLines (m ++ b) = (m ++ L) :: Ls := by
  induction m with
  | nil =>
    cases hb : SplitLines b with
    | nil => exact absurd hb (SplitLines_ne_nil b)
    | cons L Ls => exact ⟨L, Ls, rfl, by simp [hb]⟩
  | cons c m2 ih =>
    obtain ⟨L, Ls, hb, hmb⟩ := ih (fun x hx => hm x (List.mem_cons_of_mem c hx))
    refine ⟨L, Ls, hb, ?_⟩
    rw [List.cons_append, SplitLines_cons_other _ (hm c (List.mem_cons_self c m2)) hmb,
      List.cons_append]

/-- Newline count of a cons. -/
theorem nlCount_cons (c : Char) (cs : List Char) :
    nlCount (c :: cs) = nlCount cs + (if c = '\n' then 1 else 0) := by
  unfold nlCount
  rw [List.countP_cons]
  by_cases hc : c = '\n' <;> simp [hc]

/-- The number of lines is one more than the number of newlines. -/
theorem SplitLines_length (s : List Char) : (SplitLines s).length = nlCount s + 1 := by
  induction s with
  | nil => rfl
  | cons c cs ih =>
    by_cases hc : c = '\n'
    · rw [hc, SplitLines_cons_nl, List.length_cons, ih, nlCount_cons]
      simp
    · cases hs : SplitLines cs with
      | nil => exact absurd hs (SplitLines_ne_nil cs)
      | cons L Ls =>
        rw [SplitLines_cons_other cs hc hs, nlCount_cons, if_neg hc, List.length_cons,
          ← ih, hs, List.length_cons]

/-- Replacing a newline-free segment by an equally long newline-free
segment preserves the line count and every line's length, and leaves every
line other than the one holding the segment unchanged. -/
theorem SplitLines_replace (a m m2 b : List Char)
    (hm : ∀ c ∈ m, c ≠ '\n') (hm2 : ∀ c ∈ m2, c ≠ '\n') (hlen : m.length = m2.length) :
    (SplitLines (a ++ (m ++ b))).length = (SplitLines (a ++ (m2 ++ b))).length ∧
      (∀ k, ((SplitLines (a ++ (m ++ b))).get? k).map List.length =
          ((SplitLines (a ++ (m2 ++ b))).get? k).map List.length) ∧
      ∀ k, k ≠ nlCount a →
        (SplitLines (a ++ (m ++ b))).get? k = (SplitLines (a ++ (m2 ++ b))).get? k := by
  induction a with
  | nil =>
    obtain ⟨L, Ls, hb, h1⟩ := SplitLines_noNl_append m b hm
    obtain ⟨L2, Ls2, hb2, h12⟩ := SplitLines_noNl_append m2 b hm2
    rw [hb] at hb2
    injection hb2 with e1 e2
    subst e1
    subst e2
    rw [List.nil_append, List.nil_append, h1, h12]
    refine ⟨rfl, ?_, ?_⟩
    · intro k
      cases k with
      | zero => simp [List.length_append, hlen]
      | succ k2 => rfl
    · intro k hk
      cases k with
      | zero => exact absurd rfl hk
      | succ k2 => rfl
  | cons c a2 ih =>
    obtain ⟨ih1, ih2, ih3⟩ := ih
    by_cases hc : c = '\n'
    · subst hc
      rw [List.cons_append, List.cons_append, SplitLines_cons_nl, SplitLines_cons_nl]
      refine ⟨?_, ?_, ?_⟩
      · rw [List.length_cons, List.length_cons, ih1]
      · intro k
        cases k with
        | zero => rfl
        | succ k2 => exact ih2 k2
      · intro k hk
        rw [nlCount_cons, if_pos rfl] at hk
        cases k with
        | zero => rfl
        | succ k2 =>
          exact ih3 k2 (fun he => hk (by omega))
    · cases hs : SplitLines (a2 ++ (m ++ b)) with
      | nil => exact absurd hs (SplitLines_ne_nil _)
      | cons L Ls =>
        cases hs2 : SplitLines (a2 ++ (m2 ++ b)) with
        | nil => exact absurd hs2 (SplitLines_ne_nil _)
        | cons L2 Ls2 =>
          rw [List.cons_append, List.cons_append, SplitLines_cons_other _ hc hs,
            SplitLines_cons_other _ hc hs2]
          rw [hs, hs2] at ih1 ih2 ih3
          refine ⟨?_, ?_, ?_⟩
          · rw [List.length_cons, List.length_cons] at ih1 ⊢
            omega
          · intro k
            cases k with
            | zero =>
              have h0 := ih2 0
              simp only [List.get?] at h0 ⊢
              simp only [Option.map_some'] at h0 ⊢
              injection h0 with h0
              simp [h0]
            | succ k2 => exact ih2 (k2 + 1)
          · intro k hk
            rw [nlCount_cons, if_neg hc, Nat.add_zero] at hk
            cases k with
            | zero =>
              have h0 := ih3 0 hk
              simp only [List.get?] at h0 ⊢
              injection h0 with h0
              rw [h0]
            | succ k2 => exact ih3 (k2 + 1) hk

/-- An occurrence within bounds guarantees the first-occurrence search
succeeds. -/
theorem firstIdxOf_isSome {s sub : List Char} {p : Nat}
    (h : occAt s sub p = true) (hp : p ≤ s.length) :
    ∃ j, firstIdxOf s sub = some j := by
  cases hf : firstIdxOf s sub with
  | some j => exact ⟨j, rfl⟩
  | none =>
    exfalso
    have hall := scanUp_eq_none_iff.mp hf p (Nat.zero_le p) (by omega)
    have h2 : sub.isPrefixOf (s.drop p) = true := h
    rw [if_pos h2] at hall
    cases hall

/-- The index found by the first-occurrence search is an occurrence, the
text decomposes around it, and the replacement rebuilds the text with the
new segment in its place. -/
theorem replaceFirst_decomp (rep : List Char) {s pat : List Char} {j : Nat}
    (hj : firstIdxOf s pat = some j) :
    occAt s pat j = true ∧ s = s.take j ++ (pat ++ s.drop (j + pat.length)) ∧
      replaceFirst s pat rep = s.take j ++ (rep ++ s.drop (j + pat.length)) := by
  obtain ⟨k, -, -, hf, -⟩ := scanUp_eq_some_iff.mp hj
  have hocc : occAt s pat j = true := by
    by_cases hq : pat.isPrefixOf (s.drop k) = true
    · rw [if_pos hq] at hf
      injection hf with hf
      subst hf
      exact hq
    · rw [if_neg hq] at hf
      cases hf
  have hd : s.drop j = pat ++ s.drop (j + pat.length) := by
    have h2 : pat.isPrefixOf (s.drop j) = true := hocc
    have h3 := eq_append_of_isPrefixOf h2
    rw [List.drop_drop] at h3
    exact h3
  refine ⟨hocc, ?_, ?_⟩
  · conv_lhs => rw [← List.take_append_drop j s]
    rw [hd]
  · unfold replaceFirst
    rw [hj]
    simp only []
    rw [List.append_assoc]

/-- Replacing an occurring segment by an equally long one preserves length. -/
theorem replaceFirst_length {s pat rep : List Char} {j : Nat}
    (hj : firstIdxOf s pat = some j) (hlen : rep.length = pat.length) :
    (replaceFirst s pat rep).length = s.length := by
  obtain ⟨-, hdec, hrep⟩ := replaceFirst_decomp rep hj
  rw [hrep]
  conv_rhs => rw [hdec]
  simp [List.length_append, hlen]

/-- Whatever branch of the empty-command alternation matched, the inner
span is followed by the closing delimiter. -/
theorem lazyWSClose_closes {v : List Char} {k : Nat} (h : lazyWSClose v = some k) :
    braceClose.isPrefixOf (v.drop k) = true := by
  obtain ⟨k2, -, -, hf, -⟩ := scanUp_eq_some_iff.mp h
  split at hf
  · next hcond =>
    injection hf with hf
    subst hf
    exact (Bool.and_eq_true _ _ |>.mp hcond).2
  · cases hf

/-- The second alternative also ends at the closing delimiter. -/
theorem alt2Scan_closes {u : List Char} {k : Nat} (h : alt2Scan u = some k) :
    braceClose.isPrefixOf (u.drop k) = true := by
  obtain ⟨k2, -, -, hf, -⟩ := scanUp_eq_some_iff.mp h
  split at hf
  · split at hf
    · next hcond =>
      injection hf with hf
      subst hf
      exact (Bool.and_eq_true _ _ |>.mp hcond).2
    · split at hf
      · next hcond =>
        injection hf with hf
        subst hf
        exact hcond
      · cases hf
  · cases hf

/-- The matched inner span of an empty command is followed by `}}`. -/
theorem emptyCmdInner_closes {u : List Char} {k : Nat} (h : emptyCmdInner u = some k) :
    braceClose.isPrefixOf (u.drop k) = true := by
  unfold emptyCmdInner at h
  split at h
  · next k2 halt1 =>
    injection h with h
    subst h
    split at halt1
    · next u1 =>
      rw [Option.map_eq_some'] at halt1
      obtain ⟨k1, hk1, hke⟩ := halt1
      subst hke
      show braceClose.isPrefixOf (u1.drop k1) = true
      exact lazyWSClose_closes hk1
    · cases halt1
  · split at h
    · next k1 hlz =>
      injection h with h
      subst h
      exact lazyWSClose_closes hlz
    · exact alt2Scan_closes h

/-- The span reported by the empty-command matcher occurs at the reported
position. -/
theorem findEmptyCmd_occ {s : List Char} {i : Nat} {span : List Char}
    (h : findEmptyCmd s = some (i, span)) :
    occAt s span i = true ∧ i ≤ s.length := by
  obtain ⟨k, -, hk, hf, -⟩ := scanUp_eq_some_iff.mp h
  split at hf
  · next hbo =>
    rw [Option.map_eq_some'] at hf
    obtain ⟨kin, hkin, hke⟩ := hf
    injection hke with he1 he2
    rw [← he1, ← he2]
    have hdk : s.drop k = braceOpen ++ s.drop (k + 2) := by
      have h2 := eq_append_of_isPrefixOf hbo
      rw [List.drop_drop] at h2
      exact h2
    have hcl := emptyCmdInner_closes hkin
    have hd2 : s.drop (k + 2) =
        (s.drop (k + 2)).take kin ++
          (braceClose ++ (s.drop (k + 2)).drop (kin + 2)) := by
      have h3 := eq_append_of_isPrefixOf hcl
      have h4 : ((s.drop (k + 2)).drop kin).drop braceClose.length =
          (s.drop (k + 2)).drop (kin + 2) := by
        rw [List.drop_drop]
        rfl
      rw [h4] at h3
      conv_lhs => rw [← List.take_append_drop kin (s.drop (k + 2))]
      rw [h3]
    constructor
    · show (braceOpen ++ (s.drop (k + 2)).take kin ++ braceClose).isPrefixOf
        (s.drop k) = true
      have hfull : s.drop k =
          (braceOpen ++ (s.drop (k + 2)).take kin ++ braceClose) ++
            (s.drop (k + 2)).drop (kin + 2) := by
        rw [hdk]
        conv_lhs => rw [hd2]
        simp [List.append_assoc]
      rw [hfull]
      exact isPrefixOf_append_self _ _
    · omega
  · cases hf

/-- C6 (amended): when the empty-command healer's regex matches, the heal
replaces an occurrence of the matched span by an equal-length run of
spaces, preserving the total text length; the line count, every line's
length and every line other than the one holding the span are preserved
exactly when the matched span contains no newline. -/
theorem C6_amended_alignment (text : List Char) (i : Nat) (span : List Char)
    (h : findEmptyCmd text = some (i, span)) :
    (replaceFirst text span (List.replicate span.length ' ')).length = text.length ∧
      ∃ a bsuf, text = a ++ (span ++ bsuf) ∧
        replaceFirst text span (List.replicate span.length ' ') =
          a ++ (List.replicate span.length ' ' ++ bsuf) ∧
        ((∀ c ∈ span, c ≠ '\n') →
          (SplitLines (replaceFirst text span (List.replicate span.length ' '))).length =
              (SplitLines text).length ∧
            (∀ k, ((SplitLines (replaceFirst text span
                (List.replicate span.length ' '))).get? k).map List.length =
              ((SplitLines text).get? k).map List.length) ∧
            ∀ k, k ≠ nlCount a →
              (SplitLines (replaceFirst text span (List.replicate span.length ' '))).get? k =
                (SplitLines text).get? k) := by
  obtain ⟨hocc, hle⟩ := findEmptyCmd_occ h
  obtain ⟨j, hj⟩ := firstIdxOf_isSome hocc hle
  obtain ⟨hoccj, hdec, hrep⟩ := replaceFirst_decomp (List.replicate span.length ' ') hj
  have hlen : (replaceFirst text span (List.replicate span.length ' ')).length =
      text.length := replaceFirst_length hj (List.length_replicate _ _)
  refine ⟨hlen, text.take j, text.drop (j + span.length), hdec, hrep, ?_⟩
  intro hnl
  have hnl2 : ∀ c ∈ List.replicate span.length ' ', c ≠ '\n' := by
    intro c hc
    rw [List.eq_of_mem_replicate hc]
    decide
  have hrl : span.length = (List.replicate span.length ' ').length :=
    (List.length_replicate _ _).symm
  have hsl := SplitLines_replace (text.take j) span (List.replicate span.length ' ')
      (text.drop (j + span.length)) hnl hnl2 hrl
  refine ⟨?_, ?_, ?_⟩
  · rw [hrep]
    conv_rhs => rw [hdec]
    exact hsl.1.symm
  · intro k
    rw [hrep]
    conv_rhs => rw [hdec]
    exact (hsl.2.1 k).symm
  · intro k hk
    rw [hrep]
    conv_rhs => rw [hdec]
    exact (hsl.2.2 k hk).symm

/-- Oracle of a template text whose only error is an empty command
spanning a line break. -/
def mvOracle : ParseOracle := fun text _ =>
  if text = "\x7b\x7b\n\x7d\x7d" then some "template: t:1: missing value for command"
  else none

/-- C6 is false on the code: the empty-command span may contain a newline
(`\s` matches it), and healing it into spaces removes a line break — the
healed text the driver then parses has 1 line where the original had 2. -/
theorem C6_counterexample :
    parse mvOracle "\x7b\x7b\n\x7d\x7d" ⟨"t", [], none⟩ =
        Except.ok (⟨"t", [], some "     "⟩,
          [⟨0, -1, "missing value for command", ErrorLevel.parseErrorLevel⟩]) ∧
      findEmptyCmd "\x7b\x7b\n\x7d\x7d".toList = some (0, "\x7b\x7b\n\x7d\x7d".toList) ∧
      (SplitLines "\x7b\x7b\n\x7d\x7d".toList).length = 2 ∧
      (SplitLines "     ".toList).length = 1 :=
  ⟨rfl, rfl, rfl, rfl⟩

/-- Witness for C6 at a concrete single-line empty command. -/
theorem C6_witness :
    (replaceFirst "a\x7b\x7b \x7d\x7db".toList "\x7b\x7b \x7d\x7d".toList
        (List.replicate "\x7b\x7b \x7d\x7d".toList.length ' ')).length =
      "a\x7b\x7b \x7d\x7db".toList.length :=
  (C6_amended_alignment "a\x7b\x7b \x7d\x7db".toList 1 "\x7b\x7b \x7d\x7d".toList rfl).1

/-! ## Claim C5: the token locator -/

/-- A nonempty pattern can only occur strictly inside the text. -/
theorem occAt_lt_length {s t : List Char} {p : Nat} (ht : t ≠ [])
    (h : occAt s t p = true) : p < s.length := by
  unfold occAt at h
  by_contra hge
  push_neg at hge
  rw [List.drop_eq_nil_of_le (by omega)] at h
  cases t with
  | nil => exact ht rfl
  | cons c cs => simp [List.isPrefixOf] at h

/-- When the token occurs exactly once, `strings.Index` finds it there. -/
theorem strIndex_unique {line t : List Char} {p : Nat} (ht : t ≠ [])
    (h : occAt line t p = true) (huniq : ∀ q, occAt line t q = true → q = p) :
    strIndex line t = (p : Int) := by
  have hlt := occAt_lt_length ht h
  have hfi : firstIdxOf line t = some p := by
    apply scanUp_eq_some_iff.mpr
    refine ⟨p, Nat.zero_le _, by omega, ?_, ?_⟩
    · have h2 : t.isPrefixOf (line.drop p) = true := h
      rw [if_pos h2]
    · intro j hj0 hj
      by_cases hq : t.isPrefixOf (line.drop j) = true
      · exact absurd (huniq j hq) (by omega)
      · rw [if_neg hq]
  unfold strIndex
  rw [hfi]

/-- When the token occurs exactly once, `strings.LastIndex` finds the same
position. -/
theorem strLastIndex_unique {line t : List Char} {p : Nat} (ht : t ≠ [])
    (h : occAt line t p = true) (huniq : ∀ q, occAt line t q = true → q = p) :
    strLastIndex line t = (p : Int) := by
  have hlt := occAt_lt_length ht h
  have hfi : scanDown (fun q => if t.isPrefixOf (line.drop (q - 1)) then some (q - 1)
      else none) (line.length + 1) = some p := by
    apply scanDown_eq_some_iff.mpr
    refine ⟨p + 1, by omega, by omega, ?_, ?_⟩
    · have h2 : t.isPrefixOf (line.drop (p + 1 - 1)) = true := h
      rw [if_pos h2]
      simp
    · intro q2 hq2a hq2b
      by_cases hq : t.isPrefixOf (line.drop (q2 - 1)) = true
      · exact absurd (huniq (q2 - 1) hq) (by omega)
      · rw [if_neg hq]
  unfold strLastIndex
  rw [hfi]

/-- When the token never occurs, `strings.Index` reports -1. -/
theorem strIndex_none {line t : List Char} (h : ∀ p, occAt line t p = false) :
    strIndex line t = -1 := by
  have hfi : firstIdxOf line t = none := by
    apply scanUp_eq_none_iff.mpr
    intro k hk0 hk
    rw [if_neg ?_]
    intro hq
    rw [show t.isPrefixOf (line.drop k) = occAt line t k from rfl, h k] at hq
    cases hq
  unfold strIndex
  rw [hfi]

/-- When the token never occurs, `strings.LastIndex` reports -1. -/
theorem strLastIndex_none {line t : List Char} (h : ∀ p, occAt line t p = false) :
    strLastIndex line t = -1 := by
  have hfi : scanDown (fun q => if t.isPrefixOf (line.drop (q - 1)) then some (q - 1)
      else none) (line.length + 1) = none := by
    apply scanDown_eq_none_iff.mpr
    intro k hk0 hk
    rw [if_neg ?_]
    intro hq
    rw [show t.isPrefixOf (line.drop (k - 1)) = occAt line t (k - 1) from rfl, h (k - 1)] at hq
    cases hq
  unfold strLastIndex
  rw [hfi]

/-- `strings.Index` reports an occurrence at or before any given one. -/
theorem strIndex_le {line t : List Char} {p : Nat} (ht : t ≠ [])
    (h : occAt line t p = true) :
    ∃ r : Nat, strIndex line t = (r : Int) ∧ r ≤ p ∧ occAt line t r = true := by
  have hlt := occAt_lt_length ht h
  obtain ⟨j, hj⟩ := firstIdxOf_isSome h (by omega)
  obtain ⟨k, -, -, hf, hmin⟩ := scanUp_eq_some_iff.mp hj
  have hkj : k = j ∧ occAt line t k = true := by
    by_cases hq : t.isPrefixOf (line.drop k) = true
    · rw [if_pos hq] at hf
      injection hf with hf
      exact ⟨hf, hq⟩
    · rw [if_neg hq] at hf
      cases hf
  obtain ⟨he, hocck⟩ := hkj
  subst he
  refine ⟨k, by unfold strIndex; rw [hj], ?_, hocck⟩
  by_contra hgt
  push_neg at hgt
  have := hmin p (Nat.zero_le p) hgt
  have h2 : t.isPrefixOf (line.drop p) = true := h
  rw [if_pos h2] at this
  cases this

/-- `strings.LastIndex` reports an occurrence at or after any given one. -/
theorem strLastIndex_ge {line t : List Char} {p : Nat} (ht : t ≠ [])
    (h : occAt line t p = true) :
    ∃ r : Nat, strLastIndex line t = (r : Int) ∧ p ≤ r ∧ occAt line t r = true := by
  have hlt := occAt_lt_length ht h
  cases hd : scanDown (fun q => if t.isPrefixOf (line.drop (q - 1)) then some (q - 1)
      else none) (line.length + 1) with
  | none =>
    exfalso
    have := scanDown_eq_none_iff.mp hd (p + 1) (by omega) (by omega)
    have h2 : t.isPrefixOf (line.drop (p + 1 - 1)) = true := h
    rw [if_pos h2] at this
    cases this
  | some r =>
    obtain ⟨k, hk1, hk2, hf, hmax⟩ := scanDown_eq_some_iff.mp hd
    have hkr : r = k - 1 ∧ occAt line t (k - 1) = true := by
      by_cases hq : t.isPrefixOf (line.drop (k - 1)) = true
      · rw [if_pos hq] at hf
        injection hf with hf
        exact ⟨hf.symm, hq⟩
      · rw [if_neg hq] at hf
        cases hf
    obtain ⟨he, hocck⟩ := hkr
    subst he
    refine ⟨k - 1, by unfold strLastIndex; rw [hd], ?_, hocck⟩
    by_contra hgt
    push_neg at hgt
    have hbig := hmax (p + 1) (by omega) (by omega)
    have h2 : t.isPrefixOf (line.drop (p + 1 - 1)) = true := h
    rw [if_pos h2] at hbig
    cases hbig

/-- Greedy shape of the code's candidate token: it runs from the first
quote character that closes at all to the FARTHEST later quote reachable
without a newline — not to the nearest (innermost) one. -/
theorem findToken_shape {d tok : List Char} (h : findToken d = some tok) :
    ∃ i j, 1 ≤ j ∧ tok = (d.drop (i + 1)).take j ∧
      (d.get? i).any isQuote = true ∧
      ((d.drop (i + 1)).get? j).any isQuote = true ∧
      ((d.drop (i + 1)).take j).all (fun c => c ≠ '\n') = true ∧
      (∀ j2, j < j2 → ((d.drop (i + 1)).get? j2).any isQuote = true →
        ((d.drop (i + 1)).take j2).all (fun c => c ≠ '\n') = false) ∧
      (∀ i2, i2 < i → (d.get? i2).any isQuote = true →
        greedyClose (d.drop (i2 + 1)) = none) := by
  obtain ⟨i, -, -, hf, hmin⟩ := scanUp_eq_some_iff.mp h
  refine ⟨i, ?_⟩
  cases hgi : d.get? i with
  | none => rw [hgi] at hf; cases hf
  | some c =>
    rw [hgi] at hf
    simp only [] at hf
    by_cases hqc : isQuote c = true
    · rw [if_pos hqc] at hf
      obtain ⟨j, hj1, hj2, hjf, hjmax⟩ := scanDown_eq_some_iff.mp hf
      refine ⟨j, hj1, ?_, ?_, ?_, ?_, ?_, ?_⟩
      · by_cases hcond : (((d.drop (i + 1)).get? j).any isQuote &&
            ((d.drop (i + 1)).take j).all (fun c => c ≠ '\n')) = true
        · rw [if_pos hcond] at hjf
          injection hjf with hjf
          exact hjf.symm
        · rw [if_neg hcond] at hjf
          cases hjf
      · simp [hqc]
      · by_cases hcond : (((d.drop (i + 1)).get? j).any isQuote &&
            ((d.drop (i + 1)).take j).all (fun c => c ≠ '\n')) = true
        · exact (Bool.and_eq_true _ _ |>.mp hcond).1
        · rw [if_neg hcond] at hjf
          cases hjf
      · by_cases hcond : (((d.drop (i + 1)).get? j).any isQuote &&
            ((d.drop (i + 1)).take j).all (fun c => c ≠ '\n')) = true
        · exact (Bool.and_eq_true _ _ |>.mp hcond).2
        · rw [if_neg hcond] at hjf
          cases hjf
      · intro j2 hj2a hq2
        by_cases hle : j2 ≤ (d.drop (i + 1)).length
        · have hnone := hjmax j2 hj2a hle
          by_cases hall : ((d.drop (i + 1)).take j2).all (fun c => c ≠ '\n') = true
          · rw [if_pos (by rw [hq2, hall]; rfl)] at hnone
            cases hnone
          · exact Bool.eq_false_iff.mpr hall
        · exfalso
          push_neg at hle
          rw [List.get?_eq_none.mpr (by omega)] at hq2
          cases hq2
      · intro i2 hi2 hq2
        have hnone := hmin i2 (Nat.zero_le _) hi2
        cases hgi2 : d.get? i2 with
        | none =>
          rw [hgi2] at hq2
          cases hq2
        | some c2 =>
          rw [hgi2] at hnone hq2
          simp only [] at hnone
          have hqc2 : isQuote c2 = true := by
            simpa using hq2
          rw [if_pos hqc2] at hnone
          exact hnone
    · rw [if_neg hqc] at hf
      cases hf

/-- The code's candidate token is never empty. -/
theorem findToken_ne_nil {d tok : List Char} (h : findToken d = some tok) : tok ≠ [] := by
  obtain ⟨i, j, hj1, htok, -, hqj, -, -, -⟩ := findToken_shape h
  have hjlt : j < (d.drop (i + 1)).length := by
    by_contra hge
    push_neg at hge
    rw [List.get?_eq_none.mpr hge] at hqj
    cases hqj
  rw [htok]
  intro hnil
  rcases List.take_eq_nil_iff.mp hnil with he | he
  · omega
  · rw [he] at hjlt
    simp at hjlt

/-- C5 (amended): the token locator's candidate is the GREEDY quoted span
(first opening quote that closes at all, to the farthest later quote with
no intervening newline), not the non-greedy innermost span; on a valid
line, char is set to the candidate's index when it occurs exactly once in
that line, and stays -1 when it occurs never or more than once (or when no
quoted span exists). -/
theorem C5_amended_token_locator :
    (∀ (d tok : List Char), findToken d = some tok →
      ∃ i j, 1 ≤ j ∧ tok = (d.drop (i + 1)).take j ∧
        (d.get? i).any isQuote = true ∧
        ((d.drop (i + 1)).get? j).any isQuote = true ∧
        ((d.drop (i + 1)).take j).all (fun c => c ≠ '\n') = true ∧
        (∀ j2, j < j2 → ((d.drop (i + 1)).get? j2).any isQuote = true →
          ((d.drop (i + 1)).take j2).all (fun c => c ≠ '\n') = false) ∧
        (∀ i2, i2 < i → (d.get? i2).any isQuote = true →
          greedyClose (d.drop (i2 + 1)) = none)) ∧
      (∀ (e : templateError) (lines : List (List Char)) (line tok : List Char),
        e.Char = -1 → findToken e.Description.toList = some tok →
        getIdx lines e.Line = some line →
        ∃ e2, locateChar lines e = some e2 ∧ e2.Line = e.Line ∧
          e2.Description = e.Description ∧ e2.Level = e.Level ∧
          (∀ p, occAt line tok p = true → (∀ q, occAt line tok q = true → q = p) →
            e2.Char = (p : Int)) ∧
          ((∀ p, occAt line tok p = false) → e2.Char = -1) ∧
          (∀ p q, p ≠ q → occAt line tok p = true → occAt line tok q = true →
            e2.Char = -1)) ∧
      (∀ (e : templateError) (lines : List (List Char)),
        e.Char = -1 → findToken e.Description.toList = none →
        locateChar lines e = some e) := by
  refine ⟨fun d tok h => findToken_shape h, ?_, ?_⟩
  · intro e lines line tok hC hft hgi
    have htne := findToken_ne_nil hft
    have hlc : locateChar lines e =
        some (if strLastIndex line tok = strIndex line tok
          then { e with Char := strIndex line tok } else e) := by
      unfold locateChar
      rw [if_pos hC, hft, hgi]
    refine ⟨_, hlc, ?_, ?_, ?_, ?_, ?_, ?_⟩
    · split <;> rfl
    · split <;> rfl
    · split <;> rfl
    · intro p hp huniq
      rw [strIndex_unique htne hp huniq, strLastIndex_unique htne hp huniq, if_pos rfl]
    · intro hnone
      rw [strIndex_none hnone, strLastIndex_none hnone, if_pos rfl]
    · intro p q hne hp hq
      rcases Nat.lt_or_ge p q with hlt | hge
      · obtain ⟨r1, hr1, hr1le, -⟩ := strIndex_le htne hp
        obtain ⟨r2, hr2, hr2ge, -⟩ := strLastIndex_ge htne hq
        rw [hr1, hr2, if_neg (by omega)]
        exact hC
      · have hlt : q < p := by omega
        obtain ⟨r1, hr1, hr1le, -⟩ := strIndex_le htne hq
        obtain ⟨r2, hr2, hr2ge, -⟩ := strLastIndex_ge htne hp
        rw [hr1, hr2, if_neg (by omega)]
        exact hC
  · intro e lines hC hft
    unfold locateChar
    rw [if_pos hC, hft]

/-- C5 is false on the code: on description `'a' x 'b'` the spec's
non-greedy innermost candidate is `a`, which occurs three times in the
line `qa' x 'b maam`, so the claim predicts char stays -1; the code's
greedy candidate `a' x 'b` occurs once and char is set to 1. -/
theorem C5_counterexample :
    findTokenSpec "\x27a\x27 x \x27b\x27".toList = some ['a'] ∧
      occAt "qa\x27 x \x27b maam".toList ['a'] 1 = true ∧
      occAt "qa\x27 x \x27b maam".toList ['a'] 10 = true ∧
      findToken "\x27a\x27 x \x27b\x27".toList = some "a\x27 x \x27b".toList ∧
      locateChar ["qa\x27 x \x27b maam".toList]
          ⟨0, -1, "\x27a\x27 x \x27b\x27", ErrorLevel.parseErrorLevel⟩ =
        some ⟨0, 1, "\x27a\x27 x \x27b\x27", ErrorLevel.parseErrorLevel⟩ :=
  ⟨rfl, rfl, rfl, rfl, rfl⟩

/-- Witness for C5's locator clauses at a concrete diagnostic and line. -/
theorem C5_witness :
    ∃ e2, locateChar [['z', 'a', 'b']]
        ⟨0, -1, "x \x27ab\x27 y", ErrorLevel.parseErrorLevel⟩ = some e2 ∧
      e2.Line = 0 ∧ e2.Description = "x \x27ab\x27 y" ∧
      e2.Level = ErrorLevel.parseErrorLevel ∧
      (∀ p, occAt ['z', 'a', 'b'] ['a', 'b'] p = true →
        (∀ q, occAt ['z', 'a', 'b'] ['a', 'b'] q = true → q = p) →
        e2.Char = (p : Int)) ∧
      ((∀ p, occAt ['z', 'a', 'b'] ['a', 'b'] p = false) → e2.Char = -1) ∧
      (∀ p q, p ≠ q → occAt ['z', 'a', 'b'] ['a', 'b'] p = true →
        occAt ['z', 'a', 'b'] ['a', 'b'] q = true → e2.Char = -1) :=
  C5_amended_token_locator.2.1
    ⟨0, -1, "x \x27ab\x27 y", ErrorLevel.parseErrorLevel⟩
    [['z', 'a', 'b']] ['z', 'a', 'b'] ['a', 'b'] rfl rfl rfl
